import Mathlib

/-!
Verification of the gold-tracker signal engine.

The source under scrutiny is a JavaScript script that fetches a daily OHLC
series, computes the Ichimoku Cloud indicator (`getIchimokuAt`), derives a
BUY/SELL/NEUTRAL signal, deduplicates notifications through a JSON ledger
(`checkAlertHistory`), and writes a dashboard snapshot (`run`).

Embedding conventions:
* JavaScript numbers are modelled by `JSNum`: either a finite rational or
  one of the IEEE special values `NaN`, `+Infinity`, `-Infinity`.  Parsed
  bar prices are rationals (the adapter filters out `NaN` fields).
* JavaScript strings are modelled as `List Char` (`JSStr`); `String.split`
  with a one-character separator is `splitChar`, `Array.join` is `joinChar`.
* A JavaScript `Date` is modelled by its ISO-8601 string, which is the only
  form the script ever uses (`toISOString`, then `split('T')[0]`).
* The alert-history JSON object is modelled by its list of keys in insertion
  order (`Ledger`); a missing file behaves as the empty object, which is what
  the script creates on first use.
* Side effects (ledger file write recording an entry, email send, snapshot
  write) are modelled as an explicit `Effect` trace in program order.
-/

set_option allowUnsafeReducibility true in
attribute [semireducible] Rat.add Rat.mul Rat.div Rat.inv Rat.sub Rat.neg

/-- A JavaScript number: a finite rational or one of the IEEE specials. -/
inductive JSNum where
  | nan : JSNum
  | neginf : JSNum
  | posinf : JSNum
  | fin : ℚ → JSNum
deriving DecidableEq

namespace JSNum

/-- The JavaScript `<` comparison on numbers (false whenever NaN is involved). -/
def lt : JSNum → JSNum → Bool
  | nan, _ => false
  | _, nan => false
  | neginf, neginf => false
  | neginf, _ => true
  | _, neginf => false
  | posinf, _ => false
  | fin _, posinf => true
  | fin a, fin b => decide (a < b)

/-- JavaScript addition restricted to the values the script can produce. -/
def add : JSNum → JSNum → JSNum
  | nan, _ => nan
  | _, nan => nan
  | neginf, posinf => nan
  | posinf, neginf => nan
  | neginf, _ => neginf
  | _, neginf => neginf
  | posinf, _ => posinf
  | _, posinf => posinf
  | fin a, fin b => fin (a + b)

/-- JavaScript division by the literal 2. -/
def half : JSNum → JSNum
  | nan => nan
  | neginf => neginf
  | posinf => posinf
  | fin a => fin (a / 2)

/-- `Math.max` on two numbers: NaN-propagating, otherwise the larger value. -/
def max2 : JSNum → JSNum → JSNum
  | nan, _ => nan
  | _, nan => nan
  | a, b => if lt a b then b else a

/-- `Math.min` on two numbers: NaN-propagating, otherwise the smaller value. -/
def min2 : JSNum → JSNum → JSNum
  | nan, _ => nan
  | _, nan => nan
  | a, b => if lt b a then b else a

/-- Whether the value is a finite number (not NaN, not an infinity). -/
def isFinite : JSNum → Bool
  | fin _ => true
  | _ => false

/-- JavaScript truthiness of a number: `0` and `NaN` are falsy. -/
def truthy : JSNum → Bool
  | nan => false
  | fin a => decide (a ≠ 0)
  | _ => true

end JSNum

/-- A JavaScript string, modelled as its list of characters. -/
abbrev JSStr := List Char

/-- JavaScript `str.split(sep)` for a one-character separator `sep`. -/
def splitChar (sep : Char) : JSStr → List JSStr
  | [] => [[]]
  | c :: cs =>
    if c = sep then [] :: splitChar sep cs
    else
      match splitChar sep cs with
      | [] => [[c]]
      | p :: ps => (c :: p) :: ps

/-- JavaScript `parts.join(sep)` for a one-character separator `sep`. -/
def joinChar (sep : Char) : List JSStr → JSStr
  | [] => []
  | [p] => p
  | p :: q :: ps => p ++ sep :: joinChar sep (q :: ps)

/-- The calendar-day part of an ISO date string: `date.split('T')[0]`. -/
def dayOf (date : JSStr) : JSStr := (splitChar 'T' date).headD []

/-- One parsed OHLC bar.  Prices are finite rationals: the adapter drops any
record whose numeric fields fail to parse.  `date` holds the ISO string of
the bar's `Date`. -/
structure Bar where
  date : JSStr
  open_ : ℚ
  high : ℚ
  low : ℚ
  close : ℚ
deriving DecidableEq

/-- The Ichimoku components computed at one index, as the script builds them. -/
structure Ichimoku where
  tenkan : JSNum
  kijun : JSNum
  spanA : JSNum
  spanB : JSNum
deriving DecidableEq

/-- JavaScript `data.slice(a, b)` for the in-range arguments the script uses:
the elements at indices `a` up to `b` exclusive. -/
def jsSlice (data : List Bar) (a b : Nat) : List Bar :=
  (data.drop a).take (b - a)

/-- The running high/low accumulator of the `getHL` loop. -/
structure HL where
  h : JSNum
  l : JSNum
deriving DecidableEq

/-- One step of the `getHL` loop body:
`if (d.high > h) h = d.high; if (d.low < l) l = d.low`. -/
def hlStep (acc : HL) (d : Bar) : HL :=
  { h := if JSNum.lt acc.h (JSNum.fin d.high) then JSNum.fin d.high else acc.h
    l := if JSNum.lt (JSNum.fin d.low) acc.l then JSNum.fin d.low else acc.l }

/-- The script's `getHL`: fold the loop body from `h = -Infinity, l = Infinity`. -/
def getHL (slice : List Bar) : HL :=
  slice.foldl hlStep { h := JSNum.neginf, l := JSNum.posinf }

/-- The script's `getIchimokuAt(data, index)`: `null` (here `none`) when
`index < 52 + 25`, otherwise the four components computed from the slices
the source takes. -/
def getIchimokuAt (data : List Bar) (index : Nat) : Option Ichimoku :=
  if index < 52 + 25 then none
  else
    let tenkanHL := getHL (jsSlice data (index - 8) (index + 1))
    let tenkan := JSNum.half (JSNum.add tenkanHL.h tenkanHL.l)
    let kijunHL := getHL (jsSlice data (index - 25) (index + 1))
    let kijun := JSNum.half (JSNum.add kijunHL.h kijunHL.l)
    let t26 := getHL (jsSlice data (index - 25 - 9) (index - 25 + 1))
    let k26 := getHL (jsSlice data (index - 25 - 26) (index - 25 + 1))
    let spanA := JSNum.half (JSNum.add (JSNum.half (JSNum.add t26.h t26.l))
      (JSNum.half (JSNum.add k26.h k26.l)))
    let b52 := getHL (jsSlice data (index - 25 - 52) (index - 25 + 1))
    let spanB := JSNum.half (JSNum.add b52.h b52.l)
    some { tenkan := tenkan, kijun := kijun, spanA := spanA, spanB := spanB }

/-- The string `'BUY'`. -/
def strBUY : JSStr := ['B', 'U', 'Y']

/-- The string `'SELL'`. -/
def strSELL : JSStr := ['S', 'E', 'L', 'L']

/-- The string `'NEUTRAL'`. -/
def strNEUTRAL : JSStr := ['N', 'E', 'U', 'T', 'R', 'A', 'L']

/-- The signal chain of `run`: `'BUY'` when `tenkan > kijun` and
`price > Math.max(spanA, spanB)`, `'SELL'` when `tenkan < kijun` and
`price < Math.min(spanA, spanB)`, otherwise the empty string. -/
def evalSignal (price : JSNum) (t : Ichimoku) : JSStr :=
  if JSNum.lt t.kijun t.tenkan && JSNum.lt (JSNum.max2 t.spanA t.spanB) price then strBUY
  else if JSNum.lt t.tenkan t.kijun && JSNum.lt price (JSNum.min2 t.spanA t.spanB) then strSELL
  else []

/-- The snapshot's `signal: signal || 'NEUTRAL'` field. -/
def displaySignal (signal : JSStr) : JSStr :=
  if signal = [] then strNEUTRAL else signal

/-- Use the equality test coming from decidable equality for ledger keys,
the form the counting lemmas of the library are stated in. -/
instance : BEq JSStr := instBEqOfDecidableEq

/-- The composite dedup key: `` `${signal}-${day}` `` with `day` already the
calendar-day part of the date. -/
def mkKey (signal day : JSStr) : JSStr := signal ++ '-' :: day

/-- The alert-history JSON object, modelled by its keys in insertion order.
A missing history file behaves as the empty object the script creates. -/
abbrev Ledger := List JSStr

/-- An observable side effect of one invocation, in program order. -/
inductive Effect where
  | ledgerWrite (key : JSStr) : Effect
  | emailSend (signal : JSStr) : Effect
  | snapshotWrite : Effect
deriving DecidableEq

/-- Whether an effect is the email send. -/
def Effect.isEmailSend : Effect → Bool
  | .emailSend _ => true
  | _ => false

/-- Whether an effect is the ledger-entry write. -/
def Effect.isLedgerWrite : Effect → Bool
  | .ledgerWrite _ => true
  | _ => false

/-- The script's `checkAlertHistory(signal, date)`: returns `true` when the
key has already fired; otherwise inserts the key, writes the history file,
and returns `false`.  Result: (already fired, new ledger, effects). -/
def checkAlertHistory (ledger : Ledger) (signal date : JSStr) : Bool × Ledger × List Effect :=
  let key := mkKey signal (dayOf date)
  if key ∈ ledger then (true, ledger, [])
  else (false, ledger ++ [key], [Effect.ledgerWrite key])

/-- Lines 164-172 of `run`: when the signal is non-empty, consult and update
the alert history, and send the email only when the key is new.  Result:
(notification attempted, new ledger, effects in program order). -/
def signalPhase (ledger : Ledger) (signal date : JSStr) : Bool × Ledger × List Effect :=
  if signal = [] then (false, ledger, [])
  else
    let c := checkAlertHistory ledger signal date
    if c.1 then (false, c.2.1, c.2.2)
    else (true, c.2.1, c.2.2 ++ [Effect.emailSend signal])

/-- How one invocation of `run` terminates: a clean return, or the
`process.exit(1)` taken by the catch block. -/
inductive Outcome where
  | clean : Outcome
  | errorExit : Outcome
deriving DecidableEq

/-- The placeholder bar used for the (never taken) out-of-range array read. -/
def defaultBar : Bar := { date := [], open_ := 0, high := 0, low := 0, close := 0 }

/-- `data[data.length - 1]`, the latest bar of the series. -/
def latestBar (data : List Bar) : Bar := data.getD (data.length - 1) defaultBar

/-- The signal the run evaluates from its latest bar: empty when the
indicator tuple is `null`. -/
def latestSignal (data : List Bar) : JSStr :=
  match getIchimokuAt data (data.length - 1) with
  | none => []
  | some ich => evalSignal (JSNum.fin (latestBar data).close) ich

/-- The dedup key of the run's latest (signal, calendar-day) pair. -/
def runKey (data : List Bar) : JSStr :=
  mkKey (latestSignal data) (dayOf (latestBar data).date)

/-- One invocation of `run` on an already fetched series: abort quietly below
80 bars, exit with an error if the indicator tuple is `null`, otherwise run
the signal phase and always write the snapshot.  Result: (outcome, new
ledger, effects in program order). -/
def run (data : List Bar) (ledger : Ledger) : Outcome × Ledger × List Effect :=
  if data.length < 80 then (Outcome.clean, ledger, [])
  else
    match getIchimokuAt data (data.length - 1) with
    | none => (Outcome.errorExit, ledger, [])
    | some ich =>
      let p := signalPhase ledger (evalSignal (JSNum.fin (latestBar data).close) ich)
        (latestBar data).date
      (Outcome.clean, p.2.1, p.2.2 ++ [Effect.snapshotWrite])

/-- Whether one invocation attempts the email notification. -/
def runNotifies (data : List Bar) (ledger : Ledger) : Bool :=
  (run data ledger).2.2.any Effect.isEmailSend

/-- The ledger after a sequence of invocations. -/
def runLedgerSeq (ledger : Ledger) : List (List Bar) → Ledger
  | [] => ledger
  | data :: rest => runLedgerSeq (run data ledger).2.1 rest

/-- How many invocations of the sequence send a notification whose latest
(signal, calendar-day) pair has dedup key `k`. -/
def notifyCount (k : JSStr) : Ledger → List (List Bar) → Nat
  | _, [] => 0
  | ledger, data :: rest =>
    (if runNotifies data ledger = true ∧ runKey data = k then 1 else 0)
      + notifyCount k (run data ledger).2.1 rest

/-- Lines 176-181 of `run`: parse one stored key back into `{type, date}` by
`parts = key.split('-'); type = parts[0]; dStr = parts.slice(1).join('-')`. -/
def parseKey (key : JSStr) : JSStr × JSStr :=
  ((splitChar '-' key).headD [], joinChar '-' (splitChar '-' key).tail)

/-- The snapshot's `signalHistory`: every ledger key parsed back into a
`{type, date}` pair. -/
def signalsArray (ledger : Ledger) : List (JSStr × JSStr) :=
  ledger.map parseKey

/-- The ledger state holding exactly the keys of the given recorded
(type, calendar-day) events, in order. -/
def ledgerKeys (events : List (JSStr × JSStr)) : Ledger :=
  events.map (fun e => mkKey e.1 e.2)

/-- The JavaScript `v || null` applied to a possibly absent indicator
component (`indicators?.tenkan || null` and friends): `null` (`none`) when
the component is absent or falsy. -/
def jsOrNull (v : Option JSNum) : Option JSNum :=
  match v with
  | none => none
  | some x => if JSNum.truthy x then some x else none

/-- The four indicator fields of one trailing-history entry of the snapshot. -/
structure DisplayInd where
  tenkan : Option JSNum
  kijun : Option JSNum
  spanA : Option JSNum
  spanB : Option JSNum
deriving DecidableEq

/-- The indicator fields the snapshot entry carries for absolute index
`absIdx`: each component passed through `|| null`. -/
def displayIndicatorsAt (data : List Bar) (absIdx : Nat) : DisplayInd :=
  let indicators := getIchimokuAt data absIdx
  { tenkan := jsOrNull (indicators.map Ichimoku.tenkan)
    kijun := jsOrNull (indicators.map Ichimoku.kijun)
    spanA := jsOrNull (indicators.map Ichimoku.spanA)
    spanB := jsOrNull (indicators.map Ichimoku.spanB) }

/-- The snapshot's trailing history: `data.slice(-40)` with each entry's
indicators recomputed at its absolute index `data.length - 40 + i`. -/
def displayHistory (data : List Bar) : List DisplayInd :=
  (List.range (data.drop (data.length - 40)).length).map
    (fun i => displayIndicatorsAt data (data.length - 40 + i))

/-- The largest `high` of a non-empty slice (0 for the empty slice, which the
guarded code never evaluates). -/
def maxHigh : List Bar → ℚ
  | [] => 0
  | d :: ds => ds.foldl (fun m x => max m x.high) d.high

/-- The smallest `low` of a non-empty slice (0 for the empty slice, which the
guarded code never evaluates). -/
def minLow : List Bar → ℚ
  | [] => 0
  | d :: ds => ds.foldl (fun m x => min m x.low) d.low

/-- The high/low midpoint of a slice, as a rational. -/
def midQ (slice : List Bar) : ℚ := (maxHigh slice + minLow slice) / 2

/-- Modelled from the spec: the Span A value as the specification words it,
`( tenkanMidpoint(i-26) + kijunMidpoint(i-26) ) / 2`, i.e. the average of the
9-bar midpoint over `series[i-34 .. i-26]` and the 26-bar midpoint over
`series[i-51 .. i-26]`.  Stated for comparison with the computed `spanA`. -/
def claimedSpanA (data : List Bar) (i : Nat) : ℚ :=
  (midQ (jsSlice data (i - 34) (i - 25)) + midQ (jsSlice data (i - 51) (i - 25))) / 2

/-- A flat bar at price 100. -/
def flatBar : Bar := { date := [], open_ := 100, high := 100, low := 100, close := 100 }

/-- Eighty flat bars. -/
def flat80 : List Bar := List.replicate 80 flatBar

/-- A bar spiking to a high of 200. -/
def spikeBar : Bar := { date := [], open_ := 100, high := 200, low := 100, close := 100 }

/-- Seventy-eight bars, flat except for a spike at index 52: at index 77 the
spike sits inside the windows the code takes for Span A but outside the
windows the specification describes. -/
def spikeSeries : List Bar :=
  List.replicate 52 flatBar ++ [spikeBar] ++ List.replicate 25 flatBar

/-- A bar whose high/low midpoint is exactly zero. -/
def zeroBar : Bar := { date := [], open_ := 0, high := 1, low := -1, close := 0 }

/-- Eighty bars with midpoint zero everywhere: every defined indicator
component is the real number 0. -/
def zeroSeries : List Bar := List.replicate 80 zeroBar

/-- A concrete latest ISO date string. -/
def d0 : JSStr := "2024-01-15T00:00:00.000Z".toList

/-- A bar dipping to a low of 50. -/
def dipBar : Bar := { date := [], open_ := 100, high := 100, low := 50, close := 100 }

/-- The closing bar of the BUY scenario, flat at 150, dated `d0`. -/
def topBar : Bar := { date := d0, open_ := 150, high := 150, low := 150, close := 150 }

/-- An eighty-bar series whose latest evaluation is a fresh BUY signal:
flat at 100 with a dip at index 60 (inside the Kijun window only) and a
close at 150 on the last bar. -/
def buySeries : List Bar :=
  List.replicate 60 flatBar ++ [dipBar] ++ List.replicate 18 flatBar ++ [topBar]

/-- The dedup key of the BUY scenario: `BUY-2024-01-15`. -/
def kBUY : JSStr := mkKey strBUY ("2024-01-15".toList)

/-- Whether every email send in a trace strictly precedes every ledger-entry
write, position-wise; the precedence the specification asks of a run. -/
def sendPrecedesRecord (tr : List Effect) : Prop :=
  ∀ i j, tr.findIdx? Effect.isEmailSend = some i →
    tr.findIdx? Effect.isLedgerWrite = some j → i < j

/-- Eighty bars agreeing with `flat80` on high and low but differing in
date, open and close. -/
def flat80b : List Bar :=
  List.replicate 80 { date := d0, open_ := 7, high := 100, low := 100, close := 55 }

theorem hlStep_fin (a b : ℚ) (d : Bar) :
    hlStep { h := JSNum.fin a, l := JSNum.fin b } d
      = { h := JSNum.fin (max a d.high), l := JSNum.fin (min b d.low) } := by
  simp only [hlStep, JSNum.lt, decide_eq_true_eq, HL.mk.injEq]
  constructor
  · split_ifs with h
    · rw [max_eq_right h.le]
    · rw [max_eq_left (not_lt.mp h)]
  · split_ifs with h
    · rw [min_eq_right h.le]
    · rw [min_eq_left (not_lt.mp h)]

theorem foldl_hlStep_fin (ds : List Bar) (a b : ℚ) :
    ds.foldl hlStep { h := JSNum.fin a, l := JSNum.fin b }
      = { h := JSNum.fin (ds.foldl (fun m x => max m x.high) a)
          l := JSNum.fin (ds.foldl (fun m x => min m x.low) b) } := by
  induction ds generalizing a b with
  | nil => rfl
  | cons d ds ih => rw [List.foldl_cons, hlStep_fin, ih, List.foldl_cons, List.foldl_cons]

theorem getHL_mid (s : List Bar) (hs : s ≠ []) :
    getHL s = { h := JSNum.fin (maxHigh s), l := JSNum.fin (minLow s) } := by
  match s, hs with
  | d :: ds, _ =>
    have h0 : hlStep { h := JSNum.neginf, l := JSNum.posinf } d
        = { h := JSNum.fin d.high, l := JSNum.fin d.low } := by
      simp [hlStep, JSNum.lt]
    rw [getHL, List.foldl_cons, h0, foldl_hlStep_fin]
    rfl

theorem jsSlice_length (data : List Bar) (a b : Nat) :
    (jsSlice data a b).length = min (b - a) (data.length - a) := by
  simp [jsSlice]

theorem jsSlice_ne_nil (data : List Bar) (a b : Nat) (ha : a < data.length) (hab : a < b) :
    jsSlice data a b ≠ [] := by
  intro hnil
  have h := jsSlice_length data a b
  rw [hnil] at h
  simp only [List.length_nil] at h
  omega

theorem getIchimokuAt_of_lt (data : List Bar) (i : Nat) (h77 : 77 ≤ i) (hlen : i < data.length) :
    getIchimokuAt data i = some
      { tenkan := JSNum.fin (midQ (jsSlice data (i - 8) (i + 1)))
        kijun := JSNum.fin (midQ (jsSlice data (i - 25) (i + 1)))
        spanA := JSNum.fin ((midQ (jsSlice data (i - 34) (i - 24))
          + midQ (jsSlice data (i - 51) (i - 24))) / 2)
        spanB := JSNum.fin (midQ (jsSlice data (i - 77) (i - 24))) } := by
  have hg : ¬ i < 52 + 25 := by omega
  have e1 : i - 25 - 9 = i - 34 := by omega
  have e2 : i - 25 - 26 = i - 51 := by omega
  have e3 : i - 25 - 52 = i - 77 := by omega
  have e4 : i - 25 + 1 = i - 24 := by omega
  have n1 : jsSlice data (i - 8) (i + 1) ≠ [] := jsSlice_ne_nil data _ _ (by omega) (by omega)
  have n2 : jsSlice data (i - 25) (i + 1) ≠ [] := jsSlice_ne_nil data _ _ (by omega) (by omega)
  have n3 : jsSlice data (i - 34) (i - 24) ≠ [] := jsSlice_ne_nil data _ _ (by omega) (by omega)
  have n4 : jsSlice data (i - 51) (i - 24) ≠ [] := jsSlice_ne_nil data _ _ (by omega) (by omega)
  have n5 : jsSlice data (i - 77) (i - 24) ≠ [] := jsSlice_ne_nil data _ _ (by omega) (by omega)
  simp only [getIchimokuAt, e1, e2, e3, e4]
  rw [if_neg hg]
  rw [getHL_mid _ n1, getHL_mid _ n2, getHL_mid _ n3, getHL_mid _ n4, getHL_mid _ n5]
  simp only [JSNum.add, JSNum.half, midQ]

theorem getIchimokuAt_of_ge (data : List Bar) (i : Nat) (h : i < 77) :
    getIchimokuAt data i = none := by
  rw [getIchimokuAt, if_pos (by omega)]

/-- C2: the claim's lead-in threshold of 61 is wrong: the code returns
`null` for every index below `52 + 25 = 77`; in particular at index 61 of a
series of 80 finite bars the tuple is Undefined, contradicting the claim
that every index `i >= 61` reaching into the series yields a defined
tuple. -/
theorem ichimoku_threshold_cex :
    61 < flat80.length ∧ getIchimokuAt flat80 61 = none := by
  constructor
  · decide
  · exact getIchimokuAt_of_ge flat80 61 (by omega)

/-- C2 (amended): `getIchimokuAt` returns Undefined exactly for indices
below 77 = 52 + 25; for every index `i >= 77` into a series of finite bars
reaching index `i`, the result is a defined tuple whose four components are
finite. -/
theorem ichimoku_threshold (data : List Bar) (i : Nat) :
    (i < 77 → getIchimokuAt data i = none)
    ∧ (77 ≤ i → i < data.length →
        ∃ t, getIchimokuAt data i = some t ∧ t.tenkan.isFinite = true
          ∧ t.kijun.isFinite = true ∧ t.spanA.isFinite = true ∧ t.spanB.isFinite = true) := by
  refine ⟨getIchimokuAt_of_ge data i, fun h77 hlen => ?_⟩
  exact ⟨_, getIchimokuAt_of_lt data i h77 hlen, rfl, rfl, rfl, rfl⟩

/-- Witness for C2's amended theorem: in the flat 80-bar series, index 5 is
Undefined and index 77 is a defined all-finite tuple. -/
theorem ichimoku_threshold_witness :
    getIchimokuAt flat80 5 = none
    ∧ ∃ t, getIchimokuAt flat80 77 = some t ∧ t.tenkan.isFinite = true
      ∧ t.kijun.isFinite = true ∧ t.spanA.isFinite = true ∧ t.spanB.isFinite = true :=
  ⟨(ichimoku_threshold flat80 5).1 (by omega),
   (ichimoku_threshold flat80 77).2 (by omega) (by decide)⟩

set_option maxRecDepth 8000 in
/-- C3: the claim's Span A formula is wrong on the code.  In `spikeSeries`
(flat at 100 except a spike high of 200 at index 52), the code's windows at
index 77 end at bar 52 inclusive and see the spike, giving `spanA = 150`,
while the midpoints over the claim's windows `series[43 .. 51]` and
`series[26 .. 51]` are both 100, giving 100. -/
theorem spanA_spec_formula_cex :
    (getIchimokuAt spikeSeries 77).map Ichimoku.spanA
        ≠ some (JSNum.fin (claimedSpanA spikeSeries 77))
    ∧ (getIchimokuAt spikeSeries 77).map Ichimoku.spanA = some (JSNum.fin 150)
    ∧ claimedSpanA spikeSeries 77 = 100 := by
  refine ⟨?_, by decide, by decide⟩
  decide

/-- C3 (amended): for every series and every index `i` at which the tuple is
defined and which lies inside the series, `spanA(i)` equals the average of
the 10-bar high/low midpoint over `series[i-34 .. i-25]` and the 27-bar
high/low midpoint over `series[i-51 .. i-25]`: the code's Senkou windows end
one bar later (at `i-25`) and are one bar wider than the Tenkan/Kijun
windows shifted by 26. -/
theorem spanA_windows (data : List Bar) (i : Nat) (t : Ichimoku)
    (hsome : getIchimokuAt data i = some t) (hlen : i < data.length) :
    t.spanA = JSNum.fin ((midQ (jsSlice data (i - 34) (i - 24))
      + midQ (jsSlice data (i - 51) (i - 24))) / 2) := by
  have h77 : 77 ≤ i := by
    by_contra h
    rw [getIchimokuAt_of_ge data i (by omega)] at hsome
    exact Option.noConfusion hsome
  rw [getIchimokuAt_of_lt data i h77 hlen] at hsome
  cases hsome
  rfl

set_option maxRecDepth 8000 in
/-- Witness for C3's amended theorem, at `spikeSeries` index 77. -/
theorem spanA_windows_witness :
    getIchimokuAt spikeSeries 77 = some ⟨JSNum.fin 100, JSNum.fin 150, JSNum.fin 150, JSNum.fin 150⟩
    ∧ (⟨JSNum.fin 100, JSNum.fin 150, JSNum.fin 150, JSNum.fin 150⟩ : Ichimoku).spanA
        = JSNum.fin ((midQ (jsSlice spikeSeries (77 - 34) (77 - 24))
          + midQ (jsSlice spikeSeries (77 - 51) (77 - 24))) / 2) :=
  ⟨by decide, spanA_windows spikeSeries 77 _ (by decide) (by decide)⟩

theorem max2_fin (a b : ℚ) : JSNum.max2 (JSNum.fin a) (JSNum.fin b) = JSNum.fin (max a b) := by
  simp only [JSNum.max2, JSNum.lt, decide_eq_true_eq]
  split_ifs with h
  · rw [max_eq_right h.le]
  · rw [max_eq_left (not_lt.mp h)]

theorem min2_fin (a b : ℚ) : JSNum.min2 (JSNum.fin a) (JSNum.fin b) = JSNum.fin (min a b) := by
  simp only [JSNum.min2, JSNum.lt, decide_eq_true_eq]
  split_ifs with h
  · rw [min_eq_right h.le]
  · rw [min_eq_left (not_lt.mp h)]

/-- C4: on a defined tuple with finite components, the evaluated signal is
BUY exactly when `tenkan > kijun` and `price > max(spanA, spanB)`, SELL
exactly when `tenkan < kijun` and `price < min(spanA, spanB)`, and the
published signal is NEUTRAL in every other case — in particular whenever
`tenkan = kijun`, regardless of price. -/
theorem evalSignal_spec (p tk kj sa sb : ℚ) :
    (evalSignal (JSNum.fin p) ⟨JSNum.fin tk, JSNum.fin kj, JSNum.fin sa, JSNum.fin sb⟩ = strBUY
      ↔ (kj < tk ∧ max sa sb < p))
    ∧ (evalSignal (JSNum.fin p) ⟨JSNum.fin tk, JSNum.fin kj, JSNum.fin sa, JSNum.fin sb⟩ = strSELL
      ↔ (tk < kj ∧ p < min sa sb))
    ∧ (¬ (kj < tk ∧ max sa sb < p) → ¬ (tk < kj ∧ p < min sa sb) →
        displaySignal (evalSignal (JSNum.fin p)
          ⟨JSNum.fin tk, JSNum.fin kj, JSNum.fin sa, JSNum.fin sb⟩) = strNEUTRAL)
    ∧ (tk = kj →
        displaySignal (evalSignal (JSNum.fin p)
          ⟨JSNum.fin tk, JSNum.fin kj, JSNum.fin sa, JSNum.fin sb⟩) = strNEUTRAL) := by
  have hBS : strSELL ≠ strBUY := by decide
  have hSB : strBUY ≠ strSELL := by decide
  have hB : ([] : JSStr) ≠ strBUY := by decide
  have hS : ([] : JSStr) ≠ strSELL := by decide
  simp only [evalSignal, max2_fin, min2_fin, JSNum.lt, Bool.and_eq_true, decide_eq_true_eq]
  by_cases h1 : kj < tk ∧ max sa sb < p
  · rw [if_pos h1]
    exact ⟨⟨fun _ => h1, fun _ => rfl⟩,
      ⟨fun h => absurd h hSB, fun h2 => absurd h2.1 (lt_asymm h1.1)⟩,
      fun hc _ => absurd h1 hc,
      fun he => absurd (he ▸ h1.1) (lt_irrefl kj)⟩
  · rw [if_neg h1]
    by_cases h2 : tk < kj ∧ p < min sa sb
    · rw [if_pos h2]
      exact ⟨⟨fun h => absurd h hBS, fun hc => absurd hc h1⟩,
        ⟨fun _ => h2, fun _ => rfl⟩,
        fun _ hc => absurd h2 hc,
        fun he => absurd (he ▸ h2.1) (lt_irrefl kj)⟩
    · rw [if_neg h2]
      exact ⟨⟨fun h => absurd h hB, fun hc => absurd hc h1⟩,
        ⟨fun h => absurd h hS, fun hc => absurd hc h2⟩,
        fun _ _ => rfl, fun _ => rfl⟩

/-- Witness for C4: a tie `tenkan = kijun` evaluates to NEUTRAL even with
the price far above the cloud. -/
theorem evalSignal_spec_witness :
    displaySignal (evalSignal (JSNum.fin 1000)
      ⟨JSNum.fin 100, JSNum.fin 100, JSNum.fin 90, JSNum.fin 110⟩) = strNEUTRAL :=
  (evalSignal_spec 1000 100 100 90 110).2.2.2 rfl

/-- C5: recording through `checkAlertHistory` is idempotent: from any
duplicate-free ledger (a JSON object has no duplicate keys), recording
(S, D) twice leaves the same ledger as recording it once, the second call
reports the key as already fired (a plain no-op), and the ledger holds
exactly one entry for the key. -/
theorem recordFired_idempotent (ledger : Ledger) (S D : JSStr) (hnd : ledger.Nodup) :
    (checkAlertHistory (checkAlertHistory ledger S D).2.1 S D).2.1
        = (checkAlertHistory ledger S D).2.1
    ∧ (checkAlertHistory (checkAlertHistory ledger S D).2.1 S D).1 = true
    ∧ ((checkAlertHistory ledger S D).2.1).count (mkKey S (dayOf D)) = 1 := by
  by_cases hk : mkKey S (dayOf D) ∈ ledger
  · simp only [checkAlertHistory, if_pos hk]
    exact ⟨trivial, trivial, List.count_eq_one_of_mem hnd hk⟩
  · have hmem : mkKey S (dayOf D) ∈ ledger ++ [mkKey S (dayOf D)] := by simp
    simp only [checkAlertHistory, if_neg hk, if_pos hmem]
    refine ⟨trivial, trivial, ?_⟩
    have : (ledger ++ [mkKey S (dayOf D)]).Nodup := by
      simp [List.nodup_append, hnd, hk]
    exact List.count_eq_one_of_mem this hmem

/-- Witness for C5: recording `BUY` on day `2024-01-15` twice in the empty
ledger. -/
theorem recordFired_idempotent_witness :
    (checkAlertHistory (checkAlertHistory [] strBUY d0).2.1 strBUY d0).2.1
        = (checkAlertHistory [] strBUY d0).2.1
    ∧ (checkAlertHistory (checkAlertHistory [] strBUY d0).2.1 strBUY d0).1 = true
    ∧ ((checkAlertHistory [] strBUY d0).2.1).count (mkKey strBUY (dayOf d0)) = 1 :=
  recordFired_idempotent [] strBUY d0 List.nodup_nil

theorem splitChar_ne_nil (sep : Char) (s : JSStr) : splitChar sep s ≠ [] := by
  cases s with
  | nil => simp [splitChar]
  | cons c cs =>
    unfold splitChar
    split
    · exact List.cons_ne_nil _ _
    · split
      · exact List.cons_ne_nil _ _
      · exact List.cons_ne_nil _ _

theorem joinChar_cons_head (sep c : Char) (p : JSStr) (ps : List JSStr) :
    joinChar sep ((c :: p) :: ps) = c :: joinChar sep (p :: ps) := by
  cases ps with
  | nil => rfl
  | cons q qs => simp [joinChar]

theorem joinChar_splitChar (sep : Char) (s : JSStr) :
    joinChar sep (splitChar sep s) = s := by
  induction s with
  | nil => rfl
  | cons c cs ih =>
    by_cases hc : c = sep
    · subst hc
      rw [splitChar, if_pos rfl]
      obtain ⟨p, ps, hps⟩ := List.exists_cons_of_ne_nil (splitChar_ne_nil c cs)
      rw [hps]
      rw [hps] at ih
      simpa [joinChar] using ih
    · rw [splitChar, if_neg hc]
      obtain ⟨p, ps, hps⟩ := List.exists_cons_of_ne_nil (splitChar_ne_nil sep cs)
      rw [hps]
      rw [hps] at ih
      rw [joinChar_cons_head, ih]

theorem splitChar_append (sep : Char) (t d : JSStr) (ht : sep ∉ t) :
    splitChar sep (t ++ sep :: d) = t :: splitChar sep d := by
  induction t with
  | nil => simp [splitChar]
  | cons c cs ih =>
    have hc : c ≠ sep := fun h => ht (h ▸ List.mem_cons_self c cs)
    have hcs : sep ∉ cs := fun h => ht (List.mem_cons_of_mem c h)
    rw [List.cons_append, splitChar, if_neg hc, ih hcs]

theorem parseKey_mkKey (t d : JSStr) (ht : '-' ∉ t) :
    parseKey (mkKey t d) = (t, d) := by
  rw [parseKey, mkKey, splitChar_append _ _ _ ht]
  simp [joinChar_splitChar]

/-- C6: the composite key round-trips: for a signal type in {BUY, SELL} and
any calendar-day string (which may itself contain the '-' delimiter), the
stored key parses back to exactly the original pair; consequently the
snapshot's `signalHistory`, obtained by parsing every ledger key, is exactly
the recorded event list. -/
theorem key_roundtrip :
    (∀ t d : JSStr, (t = strBUY ∨ t = strSELL) → parseKey (mkKey t d) = (t, d))
    ∧ (∀ events : List (JSStr × JSStr), (∀ e ∈ events, e.1 = strBUY ∨ e.1 = strSELL) →
        signalsArray (ledgerKeys events) = events) := by
  have base : ∀ t d : JSStr, (t = strBUY ∨ t = strSELL) → parseKey (mkKey t d) = (t, d) := by
    rintro t d (rfl | rfl)
    · exact parseKey_mkKey _ _ (by decide)
    · exact parseKey_mkKey _ _ (by decide)
  refine ⟨base, fun events h => ?_⟩
  induction events with
  | nil => rfl
  | cons e es ih =>
    have he := base e.1 e.2 (h e (List.mem_cons_self e es))
    have hes := ih (fun x hx => h x (List.mem_cons_of_mem e hx))
    simp only [signalsArray, ledgerKeys, List.map_cons] at hes ⊢
    rw [he, hes]

/-- Witness for C6: the key built from `BUY` and the dashed day string
`2024-01-15` parses back to the original pair, and a two-event ledger
reproduces its event list. -/
theorem key_roundtrip_witness :
    parseKey (mkKey strBUY ("2024-01-15".toList)) = (strBUY, "2024-01-15".toList)
    ∧ signalsArray (ledgerKeys [(strBUY, "2024-01-15".toList), (strSELL, "2024-02-03".toList)])
        = [(strBUY, "2024-01-15".toList), (strSELL, "2024-02-03".toList)] :=
  ⟨key_roundtrip.1 strBUY _ (Or.inl rfl),
   key_roundtrip.2 _ (by simp [Prod.forall])⟩

theorem signalPhase_empty (ledger : Ledger) (d : JSStr) :
    signalPhase ledger [] d = (false, ledger, []) := by
  simp [signalPhase]

theorem signalPhase_dup (ledger : Ledger) (s d : JSStr) (hs : s ≠ [])
    (hk : mkKey s (dayOf d) ∈ ledger) :
    signalPhase ledger s d = (false, ledger, []) := by
  simp [signalPhase, checkAlertHistory, hs, hk]

theorem signalPhase_fresh (ledger : Ledger) (s d : JSStr) (hs : s ≠ [])
    (hk : mkKey s (dayOf d) ∉ ledger) :
    signalPhase ledger s d = (true, ledger ++ [mkKey s (dayOf d)],
      [Effect.ledgerWrite (mkKey s (dayOf d)), Effect.emailSend s]) := by
  simp [signalPhase, checkAlertHistory, hs, hk]

theorem run_not_short (data : List Bar) (ledger : Ledger) (h : ¬ data.length < 80) :
    run data ledger = (Outcome.clean,
      (signalPhase ledger (latestSignal data) (latestBar data).date).2.1,
      (signalPhase ledger (latestSignal data) (latestBar data).date).2.2
        ++ [Effect.snapshotWrite]) := by
  obtain ⟨ich, hich⟩ : ∃ ich, getIchimokuAt data (data.length - 1) = some ich :=
    ⟨_, getIchimokuAt_of_lt data (data.length - 1) (by omega) (by omega)⟩
  rw [run, if_neg h, hich, latestSignal, hich]

/-- C8: a fetched series with fewer than 80 valid bars ends the run cleanly:
outcome is not an error exit, the ledger is untouched, and no effect — no
notification, no ledger write, no snapshot write — happens. -/
theorem insufficient_history_clean (data : List Bar) (ledger : Ledger)
    (h : data.length < 80) :
    run data ledger = (Outcome.clean, ledger, []) := by
  rw [run, if_pos h]

/-- Witness for C8: a 79-bar series. -/
theorem insufficient_history_clean_witness :
    run (List.replicate 79 flatBar) [] = (Outcome.clean, [], []) :=
  insufficient_history_clean (List.replicate 79 flatBar) [] (by simp)

/-- C7: the code does not send before recording: on a fresh BUY run it
writes the ledger entry (inside `checkAlertHistory`) strictly before the
email send is attempted, refuting the claimed send-then-record ordering. -/
theorem send_order_cex :
    80 ≤ buySeries.length ∧ latestSignal buySeries ≠ [] ∧ runKey buySeries ∉ ([] : Ledger)
    ∧ (run buySeries []).2.2
        = [Effect.ledgerWrite kBUY, Effect.emailSend strBUY, Effect.snapshotWrite]
    ∧ ¬ sendPrecedesRecord (run buySeries []).2.2 := by
  have e : (run buySeries []).2.2
      = [Effect.ledgerWrite kBUY, Effect.emailSend strBUY, Effect.snapshotWrite] := by decide
  refine ⟨by decide, by decide, by simp, e, ?_⟩
  intro hsp
  rw [e] at hsp
  exact absurd (hsp 1 0 rfl rfl) (by omega)

/-- C7 (amended): in every run that fires a new BUY or SELL signal, the
ledger entry is durably recorded strictly before the notification send is
attempted; a crash between the two steps can therefore silently drop the
notification (and can never duplicate it on the next run). -/
theorem record_before_send (data : List Bar) (ledger : Ledger)
    (hlen : ¬ data.length < 80) (hs : latestSignal data ≠ [])
    (hk : runKey data ∉ ledger) :
    (run data ledger).2.2 = [Effect.ledgerWrite (runKey data),
      Effect.emailSend (latestSignal data), Effect.snapshotWrite] := by
  rw [run_not_short data ledger hlen, signalPhase_fresh ledger _ _ hs hk]
  rfl

/-- Witness for C7's amended theorem: the fresh BUY run on `buySeries`. -/
theorem record_before_send_witness :
    (run buySeries []).2.2 = [Effect.ledgerWrite (runKey buySeries),
      Effect.emailSend (latestSignal buySeries), Effect.snapshotWrite] :=
  record_before_send buySeries [] (by decide) (by decide) (by simp)

theorem runNotifies_iff (data : List Bar) (ledger : Ledger) :
    runNotifies data ledger = true
      ↔ (¬ data.length < 80 ∧ latestSignal data ≠ [] ∧ runKey data ∉ ledger) := by
  by_cases h : data.length < 80
  · simp [runNotifies, insufficient_history_clean data ledger h, h]
  · rw [runNotifies, run_not_short data ledger h]
    by_cases hs : latestSignal data = []
    · rw [hs, signalPhase_empty]
      simp [Effect.isEmailSend, h, hs]
    · by_cases hk : runKey data ∈ ledger
      · rw [signalPhase_dup ledger _ _ hs hk]
        simp [Effect.isEmailSend, h, hs, hk]
      · rw [signalPhase_fresh ledger _ _ hs hk]
        simp [Effect.isEmailSend, h, hs, hk]

theorem run_ledger_eq_or (data : List Bar) (ledger : Ledger) :
    (run data ledger).2.1 = ledger
    ∨ ((run data ledger).2.1 = ledger ++ [runKey data] ∧ ¬ data.length < 80) := by
  by_cases h : data.length < 80
  · left
    rw [insufficient_history_clean data ledger h]
  · rw [run_not_short data ledger h]
    by_cases hs : latestSignal data = []
    · left
      rw [hs, signalPhase_empty]
    · by_cases hk : runKey data ∈ ledger
      · left
        rw [signalPhase_dup ledger _ _ hs hk]
      · right
        refine ⟨?_, h⟩
        rw [signalPhase_fresh ledger _ _ hs hk]
        rfl

theorem run_ledger_superset (data : List Bar) (ledger : Ledger) (k : JSStr)
    (hk : k ∈ ledger) : k ∈ (run data ledger).2.1 := by
  rcases run_ledger_eq_or data ledger with h | ⟨h, -⟩ <;> rw [h] <;> simp [hk]

theorem notify_key_mem (data : List Bar) (ledger : Ledger)
    (h1 : runNotifies data ledger = true) : runKey data ∈ (run data ledger).2.1 := by
  obtain ⟨hlen, hs, hk⟩ := (runNotifies_iff data ledger).mp h1
  rw [run_not_short data ledger hlen, signalPhase_fresh ledger _ _ hs hk]
  simp [runKey]

theorem notifyCount_zero (k : JSStr) (runs : List (List Bar)) :
    ∀ ledger, k ∈ ledger → notifyCount k ledger runs = 0 := by
  induction runs with
  | nil => intro ledger _; rfl
  | cons data rest ih =>
    intro ledger hk
    rw [notifyCount]
    have hc : ¬ (runNotifies data ledger = true ∧ runKey data = k) := by
      rintro ⟨h1, rfl⟩
      exact ((runNotifies_iff data ledger).mp h1).2.2 hk
    rw [if_neg hc, ih _ (run_ledger_superset data ledger k hk)]

theorem notifyCount_le_one (k : JSStr) (runs : List (List Bar)) :
    ∀ ledger, notifyCount k ledger runs ≤ 1 := by
  induction runs with
  | nil => intro ledger; exact Nat.zero_le 1
  | cons data rest ih =>
    intro ledger
    rw [notifyCount]
    by_cases hc : runNotifies data ledger = true ∧ runKey data = k
    · rw [if_pos hc, notifyCount_zero k rest _ (hc.2 ▸ notify_key_mem data ledger hc.1)]
    · rw [if_neg hc]
      simpa using ih _

theorem runLedgerSeq_superset (k : JSStr) (runs : List (List Bar)) :
    ∀ ledger, k ∈ ledger → k ∈ runLedgerSeq ledger runs := by
  induction runs with
  | nil => intro ledger hk; exact hk
  | cons data rest ih =>
    intro ledger hk
    exact ih _ (run_ledger_superset data ledger k hk)

theorem runLedgerSeq_not_mem (k : JSStr) (pre : List (List Bar)) :
    ∀ ledger, k ∉ ledger → (∀ x ∈ pre, ¬ (80 ≤ x.length ∧ runKey x = k)) →
      k ∉ runLedgerSeq ledger pre := by
  induction pre with
  | nil => intro ledger hk _; exact hk
  | cons x xs ih =>
    intro ledger hk hall
    rw [runLedgerSeq]
    refine ih _ ?_ (fun y hy => hall y (List.mem_cons_of_mem x hy))
    intro hmem
    rcases run_ledger_eq_or x ledger with h | ⟨h, hlen⟩
    · rw [h] at hmem
      exact hk hmem
    · rw [h] at hmem
      rcases List.mem_append.mp hmem with h1 | h1
      · exact hk h1
      · exact hall x (List.mem_cons_self x xs) ⟨by omega, (List.mem_singleton.mp h1).symm⟩

/-- C1: across any sequence of runs from any ledger state, a notification
for a given (signal, calendar-day) dedup key is sent at most once; a key
already in the ledger is never re-notified and stays recorded; and when the
key is fresh, the first run of the sequence whose latest bar yields that
signal on that day both attempts the notification and records the ledger
entry. -/
theorem notification_at_most_once (runs : List (List Bar)) (ledger : Ledger) (k : JSStr) :
    notifyCount k ledger runs ≤ 1
    ∧ (k ∈ ledger → notifyCount k ledger runs = 0 ∧ k ∈ runLedgerSeq ledger runs)
    ∧ (∀ pre data post, runs = pre ++ data :: post → k ∉ ledger →
        (∀ x ∈ pre, ¬ (80 ≤ x.length ∧ runKey x = k)) →
        80 ≤ data.length → latestSignal data ≠ [] → runKey data = k →
        runNotifies data (runLedgerSeq ledger pre) = true
          ∧ k ∈ (run data (runLedgerSeq ledger pre)).2.1) := by
  refine ⟨notifyCount_le_one k runs ledger,
    fun hk => ⟨notifyCount_zero k runs ledger hk, runLedgerSeq_superset k runs ledger hk⟩, ?_⟩
  rintro pre data post - hk0 hpre hlen hs hkey
  have hnot : k ∉ runLedgerSeq ledger pre := runLedgerSeq_not_mem k pre ledger hk0 hpre
  have hnty : runNotifies data (runLedgerSeq ledger pre) = true :=
    (runNotifies_iff data _).mpr ⟨by omega, hs, hkey ▸ hnot⟩
  exact ⟨hnty, hkey ▸ notify_key_mem data _ hnty⟩

/-- Witness for C1: the BUY scenario run twice from the empty ledger sends
at most one notification; a pre-recorded key is never re-sent; the first
fresh BUY run notifies and records. -/
theorem notification_at_most_once_witness :
    notifyCount kBUY [] [buySeries, buySeries] ≤ 1
    ∧ (notifyCount kBUY [kBUY] [buySeries] = 0 ∧ kBUY ∈ runLedgerSeq [kBUY] [buySeries])
    ∧ (runNotifies buySeries (runLedgerSeq [] []) = true
        ∧ kBUY ∈ (run buySeries (runLedgerSeq [] [])).2.1) :=
  ⟨(notification_at_most_once [buySeries, buySeries] [] kBUY).1,
   (notification_at_most_once [buySeries] [kBUY] kBUY).2.1 (by simp),
   (notification_at_most_once [buySeries] [] kBUY).2.2 [] buySeries [] rfl (by simp)
     (by simp) (by decide) (by decide) (by decide)⟩

/-- C9: the snapshot's trailing history conflates a real zero with null.
At `zeroSeries` (every bar with high 1 and low -1) the tuple at absolute
index 79 is defined with all four components exactly 0, yet the 40-entry
trailing history's last entry — the entry for that index — serializes all
four as null, because `|| null` treats the number 0 as falsy.  This
contradicts the claim (and the stated intent) that a defined zero-valued
component is serialized as a number. -/
theorem display_null_zero_bug :
    (displayHistory zeroSeries).length = 40
    ∧ (displayHistory zeroSeries)[39]? = some (displayIndicatorsAt zeroSeries 79)
    ∧ getIchimokuAt zeroSeries 79
        = some ⟨JSNum.fin 0, JSNum.fin 0, JSNum.fin 0, JSNum.fin 0⟩
    ∧ displayIndicatorsAt zeroSeries 79 = ⟨none, none, none, none⟩ := by
  have hlen40 : (zeroSeries.drop (zeroSeries.length - 40)).length = 40 := by decide
  refine ⟨?_, ?_, by decide, by decide⟩
  · rw [displayHistory, hlen40]
    simp
  · rw [displayHistory, hlen40, List.getElem?_map, List.getElem?_range (by omega)]
    rfl

theorem foldl_hlStep_congr (s1 : List Bar) :
    ∀ (s2 : List Bar) (acc : HL),
      s1.map (fun b => (b.high, b.low)) = s2.map (fun b => (b.high, b.low)) →
      s1.foldl hlStep acc = s2.foldl hlStep acc := by
  induction s1 with
  | nil =>
    intro s2 acc h
    cases s2 with
    | nil => rfl
    | cons b2 t2 => simp at h
  | cons b t ih =>
    intro s2 acc h
    cases s2 with
    | nil => simp at h
    | cons b2 t2 =>
      simp only [List.map_cons, List.cons.injEq, Prod.mk.injEq] at h
      obtain ⟨⟨hh, hl⟩, ht⟩ := h
      rw [List.foldl_cons, List.foldl_cons]
      have hb : hlStep acc b = hlStep acc b2 := by rw [hlStep, hlStep, hh, hl]
      rw [hb]
      exact ih t2 _ ht

theorem getHL_congr (s1 s2 : List Bar)
    (h : s1.map (fun b => (b.high, b.low)) = s2.map (fun b => (b.high, b.low))) :
    getHL s1 = getHL s2 :=
  foldl_hlStep_congr s1 s2 _ h

theorem map_jsSlice (f : Bar → ℚ × ℚ) (d : List Bar) (a b : Nat) :
    (jsSlice d a b).map f = ((d.map f).drop a).take (b - a) := by
  simp [jsSlice, List.map_take, List.map_drop]

/-- C10: the indicator calculator reads only the high and low fields: two
series agreeing on high and low at every index (but arbitrary in date, open
and close) give identical tuples at every index. -/
theorem ichimoku_high_low_only (d1 d2 : List Bar)
    (h : d1.map (fun b => (b.high, b.low)) = d2.map (fun b => (b.high, b.low))) (i : Nat) :
    getIchimokuAt d1 i = getIchimokuAt d2 i := by
  have hsl : ∀ a b : Nat, getHL (jsSlice d1 a b) = getHL (jsSlice d2 a b) := by
    intro a b
    apply getHL_congr
    rw [map_jsSlice, map_jsSlice, h]
  by_cases hg : i < 52 + 25
  · rw [getIchimokuAt_of_ge d1 i (by omega), getIchimokuAt_of_ge d2 i (by omega)]
  · rw [getIchimokuAt, getIchimokuAt, if_neg hg, if_neg hg]
    simp only [hsl]

/-- Witness for C10: `flat80` and `flat80b` differ in date, open and close
but share highs and lows, and agree at index 77. -/
theorem ichimoku_high_low_only_witness :
    flat80.map (fun b => (b.high, b.low)) = flat80b.map (fun b => (b.high, b.low))
    ∧ getIchimokuAt flat80 77 = getIchimokuAt flat80b 77 :=
  ⟨by decide, ichimoku_high_low_only flat80 flat80b (by decide) 77⟩
